import Mathlib

/-!
Verification of the LLM-Assistant-Toolkit repository: a shallow embedding of
the token-bounded chunker and context-window gate (`src/main.py`) and of the
session-based chat handler (`src/app.py`), together with theorems settling
the specification's claims about them.
-/

set_option maxHeartbeats 1000000

/-- Model of Python `str.split()` (no separator argument): split on runs of
whitespace, dropping empty pieces.  `acc` holds the characters of the word
currently being read, in reverse order. -/
def pySplitAux : List Char → List Char → List String
  | [], [] => []
  | [], acc => [String.mk acc.reverse]
  | c :: cs, acc =>
    if c.isWhitespace then
      if acc.isEmpty then pySplitAux cs []
      else String.mk acc.reverse :: pySplitAux cs []
    else pySplitAux cs (c :: acc)

/-- `text.split()` from `src/main.py` line 134. -/
def pySplit (s : String) : List String :=
  pySplitAux s.data []

/-- Model of Python `' '.join(list)`: interleave the elements with single
spaces. -/
def sjoin : List String → String
  | [] => ""
  | [w] => w
  | w :: ws => w ++ " " ++ sjoin ws

/-- The word-count token counter used by the specification's chunking
scenario ("a token counter defined as word count"). -/
def wordCount (s : String) : Nat :=
  (pySplit s).length

/-- The loop of `__chunk_text` (`src/main.py` lines 138-148): greedily append
each word to `current_chunk`, re-count the joined candidate, and on overflow
pop the word, seal the previous candidate as a chunk, and restart from the
popped word; after the loop, seal any non-empty remaining candidate. -/
def chunkTextLoop (count : String → Nat) (maxTokens : Nat) :
    List String → List String → List String → List String
  | chunks, current_chunk, [] =>
    if current_chunk.isEmpty then chunks else chunks ++ [sjoin current_chunk]
  | chunks, current_chunk, word :: ws =>
    let candidate := current_chunk ++ [word]
    if count (sjoin candidate) > maxTokens then
      chunkTextLoop count maxTokens (chunks ++ [sjoin current_chunk]) [word] ws
    else
      chunkTextLoop count maxTokens chunks candidate ws

/-- `__chunk_text(text, max_tokens)` from `src/main.py` lines 122-150, with
the external tokenizer (`__count_tokens`) abstracted as the parameter
`count`. -/
def chunk_text (count : String → Nat) (text : String) (maxTokens : Nat) : List String :=
  chunkTextLoop count maxTokens [] [] (pySplit text)

/-- `MISTRAL_CONTEXT_WINDOW` from `src/main.py` line 30. -/
def MISTRAL_CONTEXT_WINDOW : Nat := 8192

/-- `max_context_tokens` from `src/main.py` line 32. -/
def max_context_tokens : Nat := 8192

/-- `expected_output_tokens` from `src/main.py` line 33. -/
def expected_output_tokens : Nat := 1000

/-- `max_input_tokens = max_context_tokens - expected_output_tokens` from
`src/main.py` line 34. -/
def max_input_tokens : Nat := max_context_tokens - expected_output_tokens

/-- `__does_need_chunking(text, context_window)` from `src/main.py` lines
173-191.  The Python expression `int(0.8 * token_count)` is modelled by its
exact-arithmetic value `4 * token_count / 5` (natural-number division, i.e.
the floor of `0.8 × token_count`). -/
def does_need_chunking (count : String → Nat) (text : String) (context_window : Nat) : Bool :=
  let token_count := count text
  let expected_output := 4 * token_count / 5
  if token_count + expected_output > context_window then true else false

/-- The per-text body of `clean_document` (`src/main.py` lines 93-100): when
the gate fires, chunk with `max_input_tokens`, clean each chunk via the
backend, and join the cleaned pieces with single spaces; otherwise clean the
whole text in one backend call.  The backend `/clean` round trip
(`__llm_text_clean`) is abstracted as `cleanFn`. -/
def clean_document (count : String → Nat) (cleanFn : String → String) (text : String) : String :=
  if does_need_chunking count text MISTRAL_CONTEXT_WINDOW then
    sjoin ((chunk_text count text max_input_tokens).map cleanFn)
  else
    cleanFn text

/-- The ordered list of texts `clean_document` sends to the backend clean
operation: one request per chunk when the gate fires (in chunk order),
otherwise a single request carrying the whole text. -/
def clean_document_backend_calls (count : String → Nat) (text : String) : List String :=
  if does_need_chunking count text MISTRAL_CONTEXT_WINDOW then
    chunk_text count text max_input_tokens
  else
    [text]

/-- Claim C1: the chunker splits on whitespace and greedily accumulates words,
sealing a chunk the moment the candidate's token count exceeds `max_tokens`;
in particular, on input "a b c d e" with a word-count token counter and
`max_tokens = 2` it returns exactly ["a b", "c d", "e"]. -/
theorem chunk_text_scenario :
    chunk_text wordCount "a b c d e" 2 = ["a b", "c d", "e"] := by
  decide

/-- Claim C4: the gate returns true iff
`count_tokens(T) + floor(0.8 × count_tokens(T)) > W`, and in particular
returns false when the sum equals `W` exactly. -/
theorem does_need_chunking_boundary (count : String → Nat) (text : String) (W : Nat) :
    (does_need_chunking count text W = true ↔
      count text + Nat.floor ((0.8 : ℚ) * (count text : ℚ)) > W) ∧
    (count text + Nat.floor ((0.8 : ℚ) * (count text : ℚ)) = W →
      does_need_chunking count text W = false) := by
  have hfloor : Nat.floor ((0.8 : ℚ) * (count text : ℚ)) = 4 * count text / 5 := by
    have h8 : (0.8 : ℚ) * (count text : ℚ) = ((4 * count text : ℕ) : ℚ) / ((5 : ℕ) : ℚ) := by
      push_cast
      ring_nf
    rw [h8, Nat.floor_div_eq_div]
  constructor
  · rw [hfloor]
    unfold does_need_chunking
    by_cases h : count text + 4 * count text / 5 > W <;> simp [h]
  · intro heq
    rw [hfloor] at heq
    unfold does_need_chunking
    simp only [gt_iff_lt]
    rw [if_neg]
    omega

/-- Witness for `does_need_chunking_boundary`: with a constant token counter
returning 5 and `W = 9`, the sum `5 + floor(0.8·5) = 9` equals the window, and
the gate indeed answers false. -/
theorem does_need_chunking_boundary_witness :
    (fun _ : String => 5) "x" + Nat.floor ((0.8 : ℚ) * (((fun _ : String => 5) "x" : Nat) : ℚ)) = 9 ∧
    does_need_chunking (fun _ => 5) "x" 9 = false := by
  have h : (fun _ : String => 5) "x" + Nat.floor ((0.8 : ℚ) * (((fun _ : String => 5) "x" : Nat) : ℚ)) = 9 := by
    norm_num
  exact ⟨h, (does_need_chunking_boundary (fun _ => 5) "x" 9).2 h⟩

lemma sjoin_cons_ne (w : String) (ws : List String) (h : ws ≠ []) :
    sjoin (w :: ws) = w ++ " " ++ sjoin ws := by
  cases ws with
  | nil => exact absurd rfl h
  | cons x xs => rfl

lemma chunkTextLoop_nil (count : String → Nat) (maxTokens : Nat) (chunks cur : List String) :
    chunkTextLoop count maxTokens chunks cur []
      = if cur.isEmpty then chunks else chunks ++ [sjoin cur] := rfl

lemma chunkTextLoop_cons (count : String → Nat) (maxTokens : Nat)
    (chunks cur : List String) (w : String) (ws : List String) :
    chunkTextLoop count maxTokens chunks cur (w :: ws)
      = if count (sjoin (cur ++ [w])) > maxTokens then
          chunkTextLoop count maxTokens (chunks ++ [sjoin cur]) [w] ws
        else
          chunkTextLoop count maxTokens chunks (cur ++ [w]) ws := rfl

/-- The `chunks` accumulator of the chunking loop is only ever appended to. -/
lemma chunkTextLoop_append_chunks (count : String → Nat) (maxTokens : Nat) :
    ∀ (ws cur chunks : List String),
      chunkTextLoop count maxTokens chunks cur ws
        = chunks ++ chunkTextLoop count maxTokens [] cur ws := by
  intro ws
  induction ws with
  | nil =>
    intro cur chunks
    by_cases hc : cur.isEmpty <;> simp [chunkTextLoop_nil, hc]
  | cons w ws ih =>
    intro cur chunks
    rw [chunkTextLoop_cons, chunkTextLoop_cons]
    by_cases hover : count (sjoin (cur ++ [w])) > maxTokens
    · rw [if_pos hover, if_pos hover, ih [w] (chunks ++ [sjoin cur]),
        ih [w] ([] ++ [sjoin cur])]
      simp
    · rw [if_neg hover, if_neg hover, ih (cur ++ [w]) chunks]

/-- Structure of the chunking loop: the produced chunks are the space-joins of
a partition (`groups`) of the remaining words appended to the current
candidate; every group draws its words from `W`, and every group either has at
most one word or joins to a string within the token budget. -/
lemma chunkTextLoop_groups (count : String → Nat) (maxTokens : Nat) (W : List String) :
    ∀ (ws chunks cur : List String),
      (∀ w ∈ ws, w ∈ W) → (∀ w ∈ cur, w ∈ W) →
      (cur.length ≤ 1 ∨ count (sjoin cur) ≤ maxTokens) →
      ∃ groups : List (List String),
        chunkTextLoop count maxTokens chunks cur ws = chunks ++ groups.map sjoin ∧
        groups.flatten = cur ++ ws ∧
        ∀ g ∈ groups, (∀ w ∈ g, w ∈ W) ∧ (g.length ≤ 1 ∨ count (sjoin g) ≤ maxTokens) := by
  intro ws
  induction ws with
  | nil =>
    intro chunks cur hws hcur hbud
    by_cases hc : cur.isEmpty
    · refine ⟨[], ?_, ?_, ?_⟩
      · simp [chunkTextLoop_nil, hc]
      · rw [List.isEmpty_iff] at hc
        simp [hc]
      · simp
    · refine ⟨[cur], ?_, ?_, ?_⟩
      · simp [chunkTextLoop_nil, hc]
      · simp
      · intro g hg
        simp only [List.mem_singleton] at hg
        subst hg
        exact ⟨hcur, hbud⟩
  | cons w ws ih =>
    intro chunks cur hws hcur hbud
    have hwW : w ∈ W := hws w (by simp)
    have hwsW : ∀ x ∈ ws, x ∈ W := fun x hx => hws x (by simp [hx])
    rw [chunkTextLoop_cons]
    by_cases hover : count (sjoin (cur ++ [w])) > maxTokens
    · rw [if_pos hover]
      obtain ⟨groups, h1, h2, h3⟩ :=
        ih (chunks ++ [sjoin cur]) [w] hwsW
          (by intro x hx; simp only [List.mem_singleton] at hx; subst hx; exact hwW)
          (Or.inl (by simp))
      refine ⟨cur :: groups, ?_, ?_, ?_⟩
      · rw [h1]
        simp
      · rw [List.flatten_cons, h2]
        simp
      · intro g hg
        rcases List.mem_cons.mp hg with hg | hg
        · subst hg
          exact ⟨hcur, hbud⟩
        · exact h3 g hg
    · rw [if_neg hover]
      obtain ⟨groups, h1, h2, h3⟩ :=
        ih chunks (cur ++ [w]) hwsW
          (by
            intro x hx
            rcases List.mem_append.mp hx with hx | hx
            · exact hcur x hx
            · simp only [List.mem_singleton] at hx
              subst hx
              exact hwW)
          (Or.inr (Nat.le_of_not_lt hover))
      refine ⟨groups, h1, ?_, h3⟩
      rw [h2]
      simp

/-- Structure of `chunk_text`: the chunks are the space-joins of a partition
of the split words, and every group is a single word or within budget. -/
lemma chunk_text_groups (count : String → Nat) (text : String) (maxTokens : Nat) :
    ∃ groups : List (List String),
      chunk_text count text maxTokens = groups.map sjoin ∧
      groups.flatten = pySplit text ∧
      ∀ g ∈ groups, (∀ w ∈ g, w ∈ pySplit text) ∧
        (g.length ≤ 1 ∨ count (sjoin g) ≤ maxTokens) := by
  obtain ⟨groups, h1, h2, h3⟩ :=
    chunkTextLoop_groups count maxTokens (pySplit text) (pySplit text) [] []
      (fun w hw => hw) (by simp) (Or.inl (by simp))
  refine ⟨groups, ?_, ?_, h3⟩
  · simpa using h1
  · simpa using h2

lemma sjoin_append (xs ys : List String) (hx : xs ≠ []) (hy : ys ≠ []) :
    sjoin (xs ++ ys) = sjoin xs ++ " " ++ sjoin ys := by
  induction xs with
  | nil => exact absurd rfl hx
  | cons x xs ih =>
    cases xs with
    | nil =>
      cases ys with
      | nil => exact absurd rfl hy
      | cons y ys =>
        rw [List.singleton_append, sjoin_cons_ne x (y :: ys) (by simp)]
        rfl
    | cons x' xs' =>
      rw [List.cons_append, sjoin_cons_ne x ((x' :: xs') ++ ys) (by simp),
        sjoin_cons_ne x (x' :: xs') (by simp), ih (by simp)]
      simp [String.append_assoc]

/-- Joining the per-group joins equals joining all the words, provided no
group is empty. -/
lemma sjoin_map_flatten (groups : List (List String))
    (hne : ∀ g ∈ groups, g ≠ []) :
    sjoin (groups.map sjoin) = sjoin groups.flatten := by
  induction groups with
  | nil => rfl
  | cons g gs ih =>
    have hg : g ≠ [] := hne g (by simp)
    have hgs : ∀ x ∈ gs, x ≠ [] := fun x hx => hne x (by simp [hx])
    cases gs with
    | nil => simp [sjoin]
    | cons g' gs' =>
      have hflat : (g' :: gs').flatten ≠ [] := by
        rw [ne_eq, List.flatten_eq_nil_iff]
        push_neg
        exact ⟨g', by simp, hgs g' (by simp)⟩
      rw [List.map_cons, sjoin_cons_ne _ _ (by simp)]
      conv_rhs => rw [List.flatten_cons]
      rw [sjoin_append g _ hg hflat, ih hgs]

/-- Whitespace normalization: collapse whitespace runs to single spaces (and
drop leading/trailing whitespace), i.e. rejoin the split words. -/
def normalizeWS (t : String) : String :=
  sjoin (pySplit t)

/-- Claim C2 counterexample: with the constant token counter 1 and
`max_tokens = 0`, the input "a" produces the chunk list ["", "a"]; the chunk
"" has token count 1 > 0 yet consists of zero words, not one, so the stated
exception does not cover it. -/
theorem chunk_budget_cex :
    chunk_text (fun _ => 1) "a" 0 = ["", "a"] ∧
    ¬ (∀ c ∈ chunk_text (fun _ => 1) "a" 0,
        (fun _ : String => 1) c ≤ 0 ∨
          ((pySplit c).length = 1 ∧ (fun _ : String => 1) c > 0)) := by
  refine ⟨by decide, ?_⟩
  intro h
  have := h "" (by decide)
  revert this
  decide

/-- Words produced by the whitespace split are never the empty string: a word
is only emitted from a non-empty character accumulator. -/
lemma pySplitAux_words_ne : ∀ (cs acc : List Char), ∀ w ∈ pySplitAux cs acc, w ≠ "" := by
  intro cs
  induction cs with
  | nil =>
    intro acc w hw
    cases acc with
    | nil =>
      rw [show pySplitAux [] [] = [] from rfl] at hw
      exact absurd hw (List.not_mem_nil w)
    | cons a as =>
      rw [show pySplitAux [] (a :: as) = [String.mk (a :: as).reverse] from rfl] at hw
      simp only [List.mem_singleton] at hw
      subst hw
      intro hcon
      have hdata := congrArg String.data hcon
      simp at hdata
  | cons c cs ih =>
    intro acc w hw
    rw [show pySplitAux (c :: cs) acc
        = (if c.isWhitespace then
            (if acc.isEmpty then pySplitAux cs []
             else String.mk acc.reverse :: pySplitAux cs [])
           else pySplitAux cs (c :: acc)) from rfl] at hw
    by_cases hc : c.isWhitespace
    · rw [if_pos hc] at hw
      by_cases ha : acc.isEmpty
      · rw [if_pos ha] at hw
        exact ih [] w hw
      · rw [if_neg ha] at hw
        rcases List.mem_cons.mp hw with hw | hw
        · subst hw
          intro hcon
          have hdata := congrArg String.data hcon
          simp only [List.isEmpty_iff] at ha
          simp [List.reverse_eq_nil_iff, ha] at hdata
        · exact ih [] w hw
    · rw [if_neg hc] at hw
      exact ih (c :: acc) w hw

lemma pySplit_words_ne (s : String) : ∀ w ∈ pySplit s, w ≠ "" :=
  pySplitAux_words_ne s.data []

/-- Joining a non-empty list of non-empty words never yields the empty
string. -/
lemma sjoin_ne_empty : ∀ (l : List String), l ≠ [] → (∀ w ∈ l, w ≠ "") → sjoin l ≠ "" := by
  intro l hl hws
  cases l with
  | nil => exact absurd rfl hl
  | cons w t =>
    cases t with
    | nil => exact hws w (by simp)
    | cons x r =>
      rw [sjoin_cons_ne w (x :: r) (by simp)]
      intro hcon
      have hlen := congrArg String.length hcon
      rw [String.length_append, String.length_append] at hlen
      have hsp : (" " : String).length = 1 := rfl
      have hnil : ("" : String).length = 0 := rfl
      omega

/-- Once the running candidate is non-empty it stays non-empty, so the loop
never seals an empty chunk from that point on. -/
lemma chunkTextLoop_no_empty (count : String → Nat) (maxTokens : Nat) :
    ∀ (ws cur : List String), cur ≠ [] → (∀ x ∈ cur, x ≠ "") → (∀ x ∈ ws, x ≠ "") →
      "" ∉ chunkTextLoop count maxTokens [] cur ws := by
  intro ws
  induction ws with
  | nil =>
    intro cur hcur hcw _
    rw [chunkTextLoop_nil, if_neg (by simp [List.isEmpty_iff, hcur])]
    intro hmem
    simp only [List.nil_append, List.mem_singleton] at hmem
    exact sjoin_ne_empty cur hcur hcw hmem.symm
  | cons w ws ih =>
    intro cur hcur hcw hws
    have hwne : w ≠ "" := hws w (by simp)
    have hwsne : ∀ x ∈ ws, x ≠ "" := fun x hx => hws x (by simp [hx])
    rw [chunkTextLoop_cons]
    by_cases hover : count (sjoin (cur ++ [w])) > maxTokens
    · rw [if_pos hover,
        chunkTextLoop_append_chunks count maxTokens ws [w] ([] ++ [sjoin cur])]
      intro hmem
      rcases List.mem_append.mp hmem with hmem | hmem
      · simp only [List.nil_append, List.mem_singleton] at hmem
        exact sjoin_ne_empty cur hcur hcw hmem.symm
      · exact ih [w] (by simp)
          (by intro x hx; simp only [List.mem_singleton] at hx; subst hx; exact hwne)
          hwsne hmem
    · rw [if_neg hover]
      exact ih (cur ++ [w]) (by simp)
        (by
          intro x hx
          rcases List.mem_append.mp hx with hx | hx
          · exact hcw x hx
          · simp only [List.mem_singleton] at hx
            subst hx
            exact hwne)
        hwsne

/-- Claim C2, amended: every chunk produced by `chunk_text` is within the
token budget, except possibly chunks equal to a single input word (whose own
token count exceeds the budget) and, when the very first word alone exceeds
the budget, an initial empty-string chunk; the empty chunk can occur only in
that case, only as the first chunk, and only once. -/
theorem chunk_budget_amended (count : String → Nat) (maxTokens : Nat) (text : String) :
    (∀ c ∈ chunk_text count text maxTokens,
      count c ≤ maxTokens ∨ c = "" ∨ ∃ w ∈ pySplit text, c = w) ∧
    ("" ∈ chunk_text count text maxTokens →
      (chunk_text count text maxTokens).head? = some "" ∧
      "" ∉ (chunk_text count text maxTokens).tail ∧
      ∃ w ws, pySplit text = w :: ws ∧ count w > maxTokens) := by
  constructor
  · obtain ⟨groups, h1, h2, h3⟩ := chunk_text_groups count text maxTokens
    intro c hc
    rw [h1] at hc
    obtain ⟨g, hg, rfl⟩ := List.mem_map.mp hc
    obtain ⟨hgW, hbud⟩ := h3 g hg
    rcases hbud with hlen | hok
    · cases g with
      | nil => exact Or.inr (Or.inl rfl)
      | cons w t =>
        cases t with
        | nil => exact Or.inr (Or.inr ⟨w, hgW w (by simp), rfl⟩)
        | cons w' t' => exact absurd hlen (by simp)
    · exact Or.inl hok
  · intro hmem
    have hwords := pySplit_words_ne text
    cases hsp : pySplit text with
    | nil =>
      unfold chunk_text at hmem
      rw [hsp, chunkTextLoop_nil] at hmem
      simp at hmem
    | cons w ws =>
      rw [hsp] at hwords
      have hwne : w ≠ "" := hwords w (by simp)
      have hwsne : ∀ x ∈ ws, x ≠ "" := fun x hx => hwords x (by simp [hx])
      have hL : chunk_text count text maxTokens
          = chunkTextLoop count maxTokens [] [] (w :: ws) := by
        unfold chunk_text
        rw [hsp]
      by_cases hover : count w > maxTokens
      · have hov' : count (sjoin ([] ++ [w])) > maxTokens := by simpa using hover
        have hstep : chunk_text count text maxTokens
            = "" :: chunkTextLoop count maxTokens [] [w] ws := by
          rw [hL, chunkTextLoop_cons, if_pos hov',
            chunkTextLoop_append_chunks count maxTokens ws [w] ([] ++ [sjoin []])]
          rfl
        have htail : "" ∉ chunkTextLoop count maxTokens [] [w] ws :=
          chunkTextLoop_no_empty count maxTokens ws [w] (by simp)
            (by intro x hx; simp only [List.mem_singleton] at hx; subst hx; exact hwne)
            hwsne
        refine ⟨?_, ?_, w, ws, rfl, hover⟩
        · rw [hstep]
          rfl
        · rw [hstep]
          exact htail
      · have hov' : ¬ count (sjoin ([] ++ [w])) > maxTokens := by simpa using hover
        have hstep : chunk_text count text maxTokens
            = chunkTextLoop count maxTokens [] ([] ++ [w]) ws := by
          rw [hL, chunkTextLoop_cons, if_neg hov']
        rw [hstep] at hmem
        exact absurd hmem
          (chunkTextLoop_no_empty count maxTokens ws ([] ++ [w]) (by simp)
            (by
              intro x hx
              simp only [List.nil_append, List.mem_singleton] at hx
              subst hx
              exact hwne)
            hwsne)

/-- Witness for `chunk_budget_amended`: the chunk "a b" of the scenario input
satisfies the amended budget property, and on input "a" with the constant
counter 1 and budget 0 (where "" is a chunk) the empty chunk is the unique
first chunk and the first word is over budget. -/
theorem chunk_budget_amended_witness :
    (wordCount "a b" ≤ 2 ∨ "a b" = "" ∨ ∃ w ∈ pySplit "a b c d e", "a b" = w) ∧
    ((chunk_text (fun _ => 1) "a" 0).head? = some "" ∧
      "" ∉ (chunk_text (fun _ => 1) "a" 0).tail ∧
      ∃ w ws, pySplit "a" = w :: ws ∧ (fun _ : String => 1) w > 0) :=
  ⟨(chunk_budget_amended wordCount 2 "a b c d e").1 "a b" (by decide),
    (chunk_budget_amended (fun _ => 1) 0 "a").2 (by decide)⟩

/-- Claim C3 counterexample: for the single-word text "a" (trivially made of
space-separated words, equal to its whitespace normalization) and a word-count
tokenizer with `max_tokens = 0`, the joined chunks are " a", which gains a
leading space and so does not reproduce the normalized original "a". -/
theorem chunk_roundtrip_cex :
    normalizeWS "a" = "a" ∧
    sjoin (chunk_text wordCount "a" 0) = " a" ∧
    sjoin (chunk_text wordCount "a" 0) ≠ normalizeWS "a" := by
  refine ⟨by decide, by decide, ?_⟩
  decide

/-- Claim C3, amended: for every whitespace-normal text (only space-separated
words), joining the chunks with single spaces reproduces the text exactly,
provided the empty string is not among the chunks (which happens only when the
first word alone exceeds the budget). -/
theorem chunk_roundtrip_amended (count : String → Nat) (maxTokens : Nat) (text : String)
    (hnorm : normalizeWS text = text)
    (hne : "" ∉ chunk_text count text maxTokens) :
    sjoin (chunk_text count text maxTokens) = text := by
  obtain ⟨groups, h1, h2, h3⟩ := chunk_text_groups count text maxTokens
  have hgne : ∀ g ∈ groups, g ≠ [] := by
    intro g hg hgnil
    apply hne
    rw [h1]
    exact List.mem_map.mpr ⟨g, hg, by rw [hgnil]; rfl⟩
  rw [h1, sjoin_map_flatten groups hgne, h2]
  exact hnorm

/-- Witness for `chunk_roundtrip_amended`: the scenario input "a b c d e" is
whitespace-normal, none of its chunks is empty, and the joined chunks
reproduce it exactly. -/
theorem chunk_roundtrip_amended_witness :
    normalizeWS "a b c d e" = "a b c d e" ∧
    "" ∉ chunk_text wordCount "a b c d e" 2 ∧
    sjoin (chunk_text wordCount "a b c d e" 2) = "a b c d e" :=
  ⟨by decide, by decide,
    chunk_roundtrip_amended wordCount 2 "a b c d e" (by decide) (by decide)⟩

/-- Claim C10: whenever the first word of the text alone exceeds the token
budget, the loop seals the still-empty candidate, so the returned chunk list
begins with the empty string. -/
theorem chunk_text_first_empty (count : String → Nat) (maxTokens : Nat)
    (text : String) (w : String) (ws : List String)
    (hsplit : pySplit text = w :: ws) (hover : count w > maxTokens) :
    (chunk_text count text maxTokens).head? = some "" := by
  unfold chunk_text
  rw [hsplit, chunkTextLoop_cons, if_pos (by simpa using hover),
    chunkTextLoop_append_chunks count maxTokens ws [w] ([] ++ [sjoin []])]
  simp [sjoin]

/-- Witness for `chunk_text_first_empty`: on input "a" with the constant
counter 1 and `max_tokens = 0`, the first chunk is "". -/
theorem chunk_text_first_empty_witness :
    pySplit "a" = "a" :: [] ∧ (fun _ : String => 1) "a" > 0 ∧
    (chunk_text (fun _ => 1) "a" 0).head? = some "" :=
  ⟨by decide, by decide,
    chunk_text_first_empty (fun _ => 1) 0 "a" "a" [] (by decide) (by decide)⟩

/-- Claim C6: when the gate fires, `clean_document` sends exactly the chunks
to the backend, in original order, and its output is the single-space join of
the per-chunk backend outputs, element `i` of the join corresponding to the
backend output for chunk `i`; otherwise it makes exactly one backend call on
the whole text and returns its output. -/
theorem clean_document_order (count : String → Nat) (cleanFn : String → String) (text : String) :
    (does_need_chunking count text MISTRAL_CONTEXT_WINDOW = true →
      clean_document_backend_calls count text = chunk_text count text max_input_tokens ∧
      clean_document count cleanFn text
        = sjoin ((chunk_text count text max_input_tokens).map cleanFn) ∧
      ((chunk_text count text max_input_tokens).map cleanFn).length
        = (chunk_text count text max_input_tokens).length ∧
      ∀ i : Nat, ((chunk_text count text max_input_tokens).map cleanFn)[i]?
        = Option.map cleanFn (chunk_text count text max_input_tokens)[i]?) ∧
    (does_need_chunking count text MISTRAL_CONTEXT_WINDOW = false →
      clean_document_backend_calls count text = [text] ∧
      clean_document count cleanFn text = cleanFn text) := by
  constructor
  · intro hgate
    refine ⟨?_, ?_, ?_, ?_⟩
    · unfold clean_document_backend_calls
      rw [if_pos hgate]
    · unfold clean_document
      rw [if_pos hgate]
    · exact List.length_map _ _
    · intro i
      exact List.getElem?_map cleanFn _ i
  · intro hgate
    refine ⟨?_, ?_⟩
    · unfold clean_document_backend_calls
      rw [if_neg (by simp [hgate])]
    · unfold clean_document
      rw [if_neg (by simp [hgate])]

/-- Witness for `clean_document_order`: a constant counter of 10000 makes the
gate fire on "a b", so the backend calls are exactly the chunks. -/
theorem clean_document_order_witness :
    clean_document_backend_calls (fun _ => 10000) "a b"
      = chunk_text (fun _ => 10000) "a b" max_input_tokens ∧
    clean_document (fun _ => 10000) (fun s => s) "a b"
      = sjoin ((chunk_text (fun _ => 10000) "a b" max_input_tokens).map (fun s => s)) ∧
    clean_document_backend_calls (fun _ => 3) "c" = ["c"] ∧
    clean_document (fun _ => 3) (fun s => s) "c" = (fun s : String => s) "c" :=
  ⟨((clean_document_order (fun _ => 10000) (fun s => s) "a b").1 (by decide)).1,
    ((clean_document_order (fun _ => 10000) (fun s => s) "a b").1 (by decide)).2.1,
    ((clean_document_order (fun _ => 3) (fun s => s) "c").2 (by decide)).1,
    ((clean_document_order (fun _ => 3) (fun s => s) "c").2 (by decide)).2⟩

/-- A message of a chat session: one entry of the `messages` lists built in
`src/app.py` (`{'role': ..., 'content': ...}`). -/
structure Turn where
  role : String
  content : String
deriving DecidableEq

/-- The `chat_sessions` dict of `src/app.py` line 50, modelled as a partial
map from session identifiers to histories. -/
def Sessions : Type := String → Option (List Turn)

/-- The initial, empty session map. -/
def emptySessions : Sessions := fun _ => none

/-- `SYSTEM_PROMPT_CHAT` from `src/app.py` lines 40-47. -/
def SYSTEM_PROMPT_CHAT : String :=
  "You are a skeptical and discerning buyer. A salesperson (the user) will attempt to convince you to purchase a product of their choice. Your behavior should follow these rules: Do not agree to buy the product unless the salesperson provides compelling and persuasive reasoning, clear relevance to your needs or problems, and specific value that meets your expectations. Ask critical and thoughtful questions. Challenge vague or weak claims. If the offer is vague, irrelevant, or unconvincing, then express doubt or reject it. Only agree to a purchase if you feel genuinely persuaded by the pitch. Maintain a polite and respectful tone, but stay firm and objective. Never agree too quickly or without solid justification."

/-- The system directive turn appended at session creation
(`src/app.py` line 121). -/
def systemTurn : Turn :=
  ⟨"system", SYSTEM_PROMPT_CHAT⟩

/-- `chat_sessions[sid] = h`: update one key of the session map. -/
def setSession (st : Sessions) (sid : String) (h : List Turn) : Sessions :=
  fun s => if s = sid then some h else st s

/-- The condition `not session_id or session_id not in chat_sessions` of
`src/app.py` line 117: the identifier is missing (absent from the payload or
the empty string, both falsy in Python) or unknown. -/
def sessionMissing (st : Sessions) (sid? : Option String) : Bool :=
  match sid? with
  | none => true
  | some s => s == "" || (st s).isNone

/-- The session bookkeeping of `src/app.py` lines 117-121: on a missing or
unknown identifier, allocate the fresh identifier `fresh` (modelling
`str(uuid.uuid4())`) and create its history holding only the system
directive; otherwise keep the supplied identifier and the map unchanged. -/
def beginOrContinue (st : Sessions) (fresh : String) (sid? : Option String) :
    Sessions × String :=
  if sessionMissing st sid? then
    (setSession st fresh [systemTurn], fresh)
  else
    (st, sid?.getD "")

/-- The `/chat` handler of `src/app.py` lines 92-138: resolve the session,
append the user turn, send the entire history to the backend, and on success
append the assistant turn and return the reply with the session identifier.
On backend failure (`raise_for_status` or transport error, modelled by
`Except.error`) the exception propagates: the user turn stays appended, no
assistant turn is added, and no retry happens.  The backend round trip is the
parameter `backend`; `fresh` models the uuid drawn when a session must be
created. -/
def chat (st : Sessions) (fresh : String) (sid? : Option String) (user_message : String)
    (backend : List Turn → Except String String) :
    Sessions × Except String (String × String) :=
  let resolved := beginOrContinue st fresh sid?
  let st1 := resolved.1
  let sid := resolved.2
  let hist := ((st1 sid).getD []) ++ [⟨"user", user_message⟩]
  let st2 := setSession st1 sid hist
  match backend hist with
  | Except.ok reply =>
    (setSession st2 sid (hist ++ [⟨"assistant", reply⟩]), Except.ok (reply, sid))
  | Except.error e => (st2, Except.error e)

/-- The request body built by the CLI chat loop (`src/main.py` lines 53-54):
`json={'message': user_input}` — a message and no session identifier.  The
loop keeps no state between iterations and only prints `reply`, discarding
the returned session identifier (line 56). -/
def chat_with_llm_request (user_input : String) : Option String × String :=
  (none, user_input)

/-- `n` successful submissions to session `sid`: the `i`-th call sends
`msgs i` and the backend answers `replies i`. -/
def submitN (sid : String) (msgs replies : Nat → String) : Nat → Sessions → Sessions
  | 0, st => st
  | n + 1, st =>
    (chat (submitN sid msgs replies n st) sid (some sid) (msgs n)
      (fun _ => Except.ok (replies n))).1

/-- The user/assistant turn pairs recorded by the first `n` submissions. -/
def histTail (msgs replies : Nat → String) : Nat → List Turn
  | 0 => []
  | n + 1 => histTail msgs replies n ++ [⟨"user", msgs n⟩, ⟨"assistant", replies n⟩]

/-- After the leading turn, roles strictly alternate, starting with `"user"`
when the flag is true. -/
def altFrom : List Turn → Bool → Bool
  | [], _ => true
  | t :: ts, expectUser =>
    (t.role == (if expectUser then "user" else "assistant")) && altFrom ts (!expectUser)

/-- A well-shaped session history: the first turn is the system directive and
the remaining roles strictly alternate user/assistant. -/
def sessionShape : List Turn → Bool
  | [] => false
  | t :: ts => (t == systemTurn) && altFrom ts true

/-- Every stored history contains the system directive exactly once, as its
first turn. -/
def OneSystemInv (st : Sessions) : Prop :=
  ∀ s hh, st s = some hh →
    (hh.filter (fun t => t.role == "system")).length = 1 ∧
    hh.head? = some systemTurn

lemma setSession_same (st : Sessions) (sid : String) (h : List Turn) :
    setSession st sid h sid = some h := by
  simp [setSession]

lemma setSession_other (st : Sessions) (sid : String) (h : List Turn)
    (s : String) (hne : s ≠ sid) : setSession st sid h s = st s := by
  simp [setSession, hne]

/-- Core of claim C5: starting from any history, `n` successful submissions
append exactly the `n` user/assistant pairs, in order. -/
lemma submitN_history (sid : String) (msgs replies : Nat → String) (hsid : sid ≠ "") :
    ∀ (n : Nat) (st : Sessions) (h₀ : List Turn), st sid = some h₀ →
      (submitN sid msgs replies n st) sid = some (h₀ ++ histTail msgs replies n) := by
  intro n
  induction n with
  | zero =>
    intro st h₀ hst
    simpa [submitN, histTail] using hst
  | succ n ih =>
    intro st h₀ hst
    have hn := ih st h₀ hst
    have hmiss : sessionMissing (submitN sid msgs replies n st) (some sid) = false := by
      simp [sessionMissing, hn, hsid]
    show (chat (submitN sid msgs replies n st) sid (some sid) (msgs n)
      (fun _ => Except.ok (replies n))).1 sid = _
    unfold chat beginOrContinue
    rw [hmiss]
    simp [hn, setSession, histTail]

lemma histTail_length (msgs replies : Nat → String) :
    ∀ n, (histTail msgs replies n).length = 2 * n := by
  intro n
  induction n with
  | zero => rfl
  | succ n ih =>
    rw [histTail, List.length_append, ih]
    simp
    omega

lemma altFrom_histTail (msgs replies : Nat → String) :
    ∀ (n : Nat) (rest : List Turn),
      altFrom (histTail msgs replies n ++ rest) true = altFrom rest true := by
  intro n
  induction n with
  | zero => intro rest; rfl
  | succ n ih =>
    intro rest
    rw [histTail, List.append_assoc, ih]
    simp [altFrom]

/-- Claim C5: if session `sid` holds exactly the system directive (its state
right after creation), then after `n` successful submissions its history is
the system turn followed by the `n` user/assistant pairs: length `1 + 2n`,
system first, then strictly alternating user/assistant roles, the user turn
recorded before each backend call and the assistant turn recorded from that
call's reply. -/
theorem session_monotonicity (n : Nat) (sid : String) (msgs replies : Nat → String)
    (st : Sessions) (hsid : sid ≠ "") (hst : st sid = some [systemTurn]) :
    (submitN sid msgs replies n st) sid
      = some (systemTurn :: histTail msgs replies n) ∧
    (systemTurn :: histTail msgs replies n).length = 1 + 2 * n ∧
    sessionShape (systemTurn :: histTail msgs replies n) = true := by
  refine ⟨?_, ?_, ?_⟩
  · simpa using submitN_history sid msgs replies hsid n st [systemTurn] hst
  · simp [histTail_length]
    omega
  · have h := altFrom_histTail msgs replies n []
    rw [List.append_nil] at h
    simp [sessionShape, h, altFrom]

/-- Witness for `session_monotonicity`: two successful submissions to a fresh
session named "S" leave a 5-turn, well-shaped history. -/
theorem session_monotonicity_witness :
    (submitN "S" (fun _ => "hi") (fun _ => "ok") 2
        (setSession emptySessions "S" [systemTurn])) "S"
      = some (systemTurn :: histTail (fun _ => "hi") (fun _ => "ok") 2) ∧
    (systemTurn :: histTail (fun _ => "hi") (fun _ => "ok") 2).length = 1 + 2 * 2 ∧
    sessionShape (systemTurn :: histTail (fun _ => "hi") (fun _ => "ok") 2) = true :=
  session_monotonicity 2 "S" (fun _ => "hi") (fun _ => "ok")
    (setSession emptySessions "S" [systemTurn]) (by decide) rfl

/-- Claim C7: when the backend call fails, the handler leaves the session map
with exactly the user turn appended (no rollback), appends no assistant turn,
and surfaces the error to the caller with no retry. -/
theorem chat_failure_keeps_user_turn (st : Sessions) (fresh sid msg e : String)
    (h : List Turn) (hsid : sid ≠ "") (hfound : st sid = some h) :
    chat st fresh (some sid) msg (fun _ => Except.error e)
      = (setSession st sid (h ++ [⟨"user", msg⟩]), Except.error e) := by
  have hmiss : sessionMissing st (some sid) = false := by
    simp [sessionMissing, hfound, hsid]
  unfold chat beginOrContinue
  rw [hmiss]
  simp [hfound]

/-- Witness for `chat_failure_keeps_user_turn` at a concrete one-session
state. -/
theorem chat_failure_keeps_user_turn_witness :
    chat (setSession emptySessions "S" [systemTurn]) "F" (some "S") "hi"
        (fun _ => Except.error "boom")
      = (setSession (setSession emptySessions "S" [systemTurn]) "S"
          ([systemTurn] ++ [⟨"user", "hi"⟩]), Except.error "boom") :=
  chat_failure_keeps_user_turn (setSession emptySessions "S" [systemTurn])
    "F" "S" "hi" "boom" [systemTurn] (by decide) rfl

lemma OneSystemInv_set (st : Sessions) (sid : String) (hh : List Turn)
    (hinv : OneSystemInv st)
    (hhh : (hh.filter (fun t => t.role == "system")).length = 1 ∧
      hh.head? = some systemTurn) :
    OneSystemInv (setSession st sid hh) := by
  intro s h hget
  by_cases he : s = sid
  · subst he
    rw [setSession_same] at hget
    cases hget
    exact hhh
  · rw [setSession_other st sid hh s he] at hget
    exact hinv s h hget

lemma history_extend_system (h₁ extra : List Turn)
    (hfilter : (h₁.filter (fun t => t.role == "system")).length = 1)
    (hhead : h₁.head? = some systemTurn)
    (hextra : ∀ t ∈ extra, (t.role == "system") = false) :
    ((h₁ ++ extra).filter (fun t => t.role == "system")).length = 1 ∧
    (h₁ ++ extra).head? = some systemTurn := by
  constructor
  · rw [List.filter_append]
    have hnil : extra.filter (fun t => t.role == "system") = [] := by
      rw [List.filter_eq_nil_iff]
      intro t ht
      simp [hextra t ht]
    rw [hnil, List.append_nil]
    exact hfilter
  · rw [List.head?_append, hhead]
    rfl

/-- The `/chat` handler preserves the one-system-turn invariant, whatever the
supplied identifier and whatever the backend outcome. -/
lemma chat_preserves_OneSystemInv (st : Sessions) (fresh : String)
    (sid? : Option String) (msg : String)
    (backend : List Turn → Except String String)
    (hinv : OneSystemInv st) :
    OneSystemInv (chat st fresh sid? msg backend).1 := by
  unfold chat
  cases hb : sessionMissing st sid? with
  | true =>
    have hbc : beginOrContinue st fresh sid? = (setSession st fresh [systemTurn], fresh) := by
      unfold beginOrContinue
      rw [hb]
      simp
    rw [hbc]
    simp only [setSession_same, Option.getD_some]
    have hinv1 : OneSystemInv (setSession st fresh [systemTurn]) :=
      OneSystemInv_set st fresh [systemTurn] hinv ⟨rfl, rfl⟩
    have hbase : (([systemTurn] : List Turn).filter (fun t => t.role == "system")).length = 1 ∧
        ([systemTurn] : List Turn).head? = some systemTurn := ⟨rfl, rfl⟩
    cases hback : backend ([systemTurn] ++ [⟨"user", msg⟩]) with
    | ok reply =>
      refine OneSystemInv_set _ fresh _
        (OneSystemInv_set _ fresh _ hinv1 ?_) ?_
      · exact history_extend_system [systemTurn] [⟨"user", msg⟩] hbase.1 hbase.2
          (by intro t ht; simp at ht; subst ht; rfl)
      · have hu := history_extend_system [systemTurn] [⟨"user", msg⟩] hbase.1 hbase.2
          (by intro t ht; simp at ht; subst ht; rfl)
        exact history_extend_system ([systemTurn] ++ [⟨"user", msg⟩])
          [⟨"assistant", reply⟩] hu.1 hu.2
          (by intro t ht; simp at ht; subst ht; rfl)
    | error e =>
      exact OneSystemInv_set _ fresh _ hinv1
        (history_extend_system [systemTurn] [⟨"user", msg⟩] hbase.1 hbase.2
          (by intro t ht; simp at ht; subst ht; rfl))
  | false =>
    match sid? with
    | none => simp [sessionMissing] at hb
    | some s =>
      cases hso : st s with
      | none => simp [sessionMissing, hso] at hb
      | some h₁ =>
        obtain ⟨hf₁, hd₁⟩ := hinv s h₁ hso
        have hbc : beginOrContinue st fresh (some s) = (st, s) := by
          unfold beginOrContinue
          rw [hb]
          simp
        rw [hbc]
        simp only [hso, Option.getD_some]
        cases hback : backend (h₁ ++ [⟨"user", msg⟩]) with
        | ok reply =>
          refine OneSystemInv_set _ s _ (OneSystemInv_set _ s _ hinv ?_) ?_
          · exact history_extend_system h₁ [⟨"user", msg⟩] hf₁ hd₁
              (by intro t ht; simp at ht; subst ht; rfl)
          · have hu := history_extend_system h₁ [⟨"user", msg⟩] hf₁ hd₁
              (by intro t ht; simp at ht; subst ht; rfl)
            exact history_extend_system (h₁ ++ [⟨"user", msg⟩])
              [⟨"assistant", reply⟩] hu.1 hu.2
              (by intro t ht; simp at ht; subst ht; rfl)
        | error e =>
          exact OneSystemInv_set _ s _ hinv
            (history_extend_system h₁ [⟨"user", msg⟩] hf₁ hd₁
              (by intro t ht; simp at ht; subst ht; rfl))

/-- Claim C8: session lookup never fails.  A missing (absent, falsy, or
unknown) identifier silently yields a freshly allocated session whose only
turn is the system directive; a known identifier is returned unchanged with
the map untouched; and every handler call preserves the invariant that each
stored history contains exactly one system turn, at its head, placed at
creation. -/
theorem session_lookup_total (st : Sessions) (fresh s : String) (h : List Turn)
    (hs : s ≠ "") (hfound : st s = some h) (hinv : OneSystemInv st) :
    (∀ sid?, sessionMissing st sid? = true →
      beginOrContinue st fresh sid? = (setSession st fresh [systemTurn], fresh) ∧
      (beginOrContinue st fresh sid?).1 fresh = some [systemTurn]) ∧
    beginOrContinue st fresh (some s) = (st, s) ∧
    (∀ sid? msg backend, OneSystemInv (chat st fresh sid? msg backend).1) := by
  refine ⟨?_, ?_, ?_⟩
  · intro sid? hmiss
    have hbc : beginOrContinue st fresh sid? = (setSession st fresh [systemTurn], fresh) := by
      unfold beginOrContinue
      rw [hmiss]
      simp
    exact ⟨hbc, by rw [hbc]; exact setSession_same st fresh [systemTurn]⟩
  · have hmiss : sessionMissing st (some s) = false := by
      simp [sessionMissing, hfound, hs]
    unfold beginOrContinue
    rw [hmiss]
    simp
  · intro sid? msg backend
    exact chat_preserves_OneSystemInv st fresh sid? msg backend hinv

lemma OneSystemInv_example :
    OneSystemInv (setSession emptySessions "S" [systemTurn]) := by
  intro s hh hget
  by_cases he : s = "S"
  · subst he
    rw [setSession_same] at hget
    cases hget
    exact ⟨rfl, rfl⟩
  · rw [setSession_other _ _ _ _ he] at hget
    exact absurd hget (by simp [emptySessions])

/-- Witness for `session_lookup_total` at a concrete one-session state. -/
theorem session_lookup_total_witness :
    (beginOrContinue (setSession emptySessions "S" [systemTurn]) "F" none
        = (setSession (setSession emptySessions "S" [systemTurn]) "F" [systemTurn], "F")) ∧
    beginOrContinue (setSession emptySessions "S" [systemTurn]) "F" (some "S")
        = (setSession emptySessions "S" [systemTurn], "S") ∧
    OneSystemInv (chat (setSession emptySessions "S" [systemTurn]) "F" none "hi"
        (fun _ => Except.ok "r")).1 :=
  have base := session_lookup_total (setSession emptySessions "S" [systemTurn])
    "F" "S" [systemTurn] (by decide) rfl OneSystemInv_example
  ⟨(base.1 none rfl).1, base.2.1, base.2.2 none "hi" (fun _ => Except.ok "r")⟩

/-- Claim C9: each CLI chat request carries the message and no session
identifier, and the returned identifier is discarded (the loop keeps no
state), so every CLI turn makes the server allocate a brand-new session whose
history is exactly the system directive, that single user message, and the
reply — independent of all existing sessions, which are left untouched; no
conversation context carries across successive CLI turns. -/
theorem cli_chat_no_context (st : Sessions) (fresh m r : String) :
    (chat_with_llm_request m).1 = none ∧
    (chat st fresh (chat_with_llm_request m).1 (chat_with_llm_request m).2
        (fun _ => Except.ok r)).2 = Except.ok (r, fresh) ∧
    (chat st fresh (chat_with_llm_request m).1 (chat_with_llm_request m).2
        (fun _ => Except.ok r)).1 fresh
      = some [systemTurn, ⟨"user", m⟩, ⟨"assistant", r⟩] ∧
    (∀ s, s ≠ fresh →
      (chat st fresh (chat_with_llm_request m).1 (chat_with_llm_request m).2
          (fun _ => Except.ok r)).1 s = st s) := by
  have hbc : beginOrContinue st fresh none = (setSession st fresh [systemTurn], fresh) := by
    unfold beginOrContinue
    simp [sessionMissing]
  refine ⟨rfl, ?_, ?_, ?_⟩
  · unfold chat chat_with_llm_request
    rw [hbc]
  · unfold chat chat_with_llm_request
    rw [hbc]
    simp [setSession]
  · intro s hsne
    unfold chat chat_with_llm_request
    rw [hbc]
    simp [setSession, hsne]

/-- Witness for `cli_chat_no_context` on the empty server state. -/
theorem cli_chat_no_context_witness :
    (chat_with_llm_request "hello").1 = none ∧
    (chat emptySessions "F" (chat_with_llm_request "hello").1
        (chat_with_llm_request "hello").2 (fun _ => Except.ok "yo")).2
      = Except.ok ("yo", "F") ∧
    (chat emptySessions "F" (chat_with_llm_request "hello").1
        (chat_with_llm_request "hello").2 (fun _ => Except.ok "yo")).1 "F"
      = some [systemTurn, ⟨"user", "hello"⟩, ⟨"assistant", "yo"⟩] ∧
    (chat emptySessions "F" (chat_with_llm_request "hello").1
        (chat_with_llm_request "hello").2 (fun _ => Except.ok "yo")).1 "Z"
      = emptySessions "Z" :=
  have base := cli_chat_no_context emptySessions "F" "hello" "yo"
  ⟨base.1, base.2.1, base.2.2.1, base.2.2.2 "Z" (by decide)⟩
